import Mathlib

/-!
Shallow embedding of `src/receipt_processor.py` (bills2sheet_pdf): the
receipt-PDF parsing pipeline (table extraction, row normalization, scalar
field scanning) and the export-orchestration skeleton, together with
theorems settling the frozen claims about it.

Python strings are modelled as Lean `String`; a line of page text is a
`String`; a table is a `List (List String)` where a cell that was Python
`None` is represented by its `str()` image "None", exactly how the code
reads cells (it always goes through `str(...)`).  Regexes are modelled by
the decidable matchers below; the patterns used by the code are anchored
and digit-based, so the matchers are the direct transcription.  Character
classes use the ASCII reading of the Python patterns (the receipts are
Swedish/ASCII digit text); `lower()` is ASCII lowering extended with the
three Swedish capitals used in the keyword sets.
-/

/-! ## Character and string primitives mirroring the Python builtins -/

/-- Python whitespace for `str.strip()` (the ASCII whitespace set). -/
def pyIsSpace (c : Char) : Bool :=
  c == ' ' || c == '\t' || c == '\n' || c == '\r' || c == '\x0b' || c == '\x0c'

/-- Core of `str.strip()` on the character list. -/
def stripL (cs : List Char) : List Char :=
  ((cs.dropWhile pyIsSpace).reverse.dropWhile pyIsSpace).reverse

/-- Python `s.strip()`. -/
def pyStrip (s : String) : String := String.mk (stripL s.toList)

/-- Python `str.lower()` restricted to ASCII plus the Swedish capitals that
appear in the keyword sets of the source. -/
def lowerChar (c : Char) : Char :=
  if 'A' ≤ c && c ≤ 'Z' then Char.ofNat (c.toNat + 32)
  else if c == 'Ä' then 'ä' else if c == 'Ö' then 'ö' else if c == 'Å' then 'å'
  else c

/-- Python `s.lower()` (see `lowerChar`). -/
def pyLower (s : String) : String := String.mk (s.toList.map lowerChar)

/-- Whether `pat` is an initial segment of `s`. -/
def hasPrefixL : List Char → List Char → Bool
  | [], _ => true
  | _ :: _, [] => false
  | p :: ps, c :: cs => p == c && hasPrefixL ps cs

/-- Python `pat in s` (substring containment) and `s.startswith(pat)`. -/
def hasPrefixS (pat s : String) : Bool := hasPrefixL pat.toList s.toList

/-- Python `pat in s`: some suffix of `s` starts with `pat`. -/
def containsSub (s pat : String) : Bool :=
  s.toList.tails.any (fun t => hasPrefixL pat.toList t)

/-- Python `s.replace(',', '.')`. -/
def commaToDot (s : String) : String :=
  String.mk (s.toList.map (fun c => if c == ',' then '.' else c))

/-- The character class kept by `re.sub(r'[^\d,.-]', '', _)`:
digits, comma, dot, minus. -/
def priceKeep (c : Char) : Bool := c.isDigit || c == ',' || c == '.' || c == '-'

/-- Python `re.sub(r'[^\d,.-]', '', s)`: delete every other character. -/
def priceSub (s : String) : String := String.mk (s.toList.filter priceKeep)

/-- Full match of the anchored pattern `^\d+\.\d{2}$`: one or more digits, a
dot, exactly two digits.  Because a digit can never match the dot, a match of
the pattern decomposes uniquely as (maximal digit run, '.', two digits), which
is what this decides. -/
def priceFormatB (s : String) : Bool :=
  let cs := s.toList
  let ds := cs.takeWhile Char.isDigit
  !ds.isEmpty &&
    (match cs.drop ds.length with
     | ['.', a, b] => a.isDigit && b.isDigit
     | _ => false)

/-- Full match of `^\d{4,}$`: only digits, at least four of them. -/
def isArticleNum (s : String) : Bool :=
  4 ≤ s.toList.length && s.toList.all Char.isDigit

/-- Full match of `^\d+[,\.]\d{2}$`: digits, a comma or dot, two digits. -/
def isPriceTok (s : String) : Bool :=
  let cs := s.toList
  let ds := cs.takeWhile Char.isDigit
  !ds.isEmpty &&
    (match cs.drop ds.length with
     | [sep, a, b] => (sep == ',' || sep == '.') && a.isDigit && b.isDigit
     | _ => false)

/-- Python `s.startswith(('+', '*'))`. -/
def startsPlusStar (s : String) : Bool :=
  match s.toList with
  | c :: _ => c == '+' || c == '*'
  | [] => false

/-- Python truthiness of an optional string argument (argparse gives `None`
when the flag is absent; the empty string is also falsy). -/
def pyTruthy : Option String → Bool
  | none => false
  | some s => s != ""

/-- Python list indexing `l[i]` with negative indices counting from the end;
`none` is an IndexError. -/
def pyIndex (l : List α) (i : Int) : Option α :=
  let j : Int := if i < 0 then (l.length : Int) + i else i
  if h : 0 ≤ j ∧ j < (l.length : Int) then
    some (l.get ⟨j.toNat, by omega⟩)
  else none

/-- Python `s.split('\n')`: cut at every newline, keeping empty pieces
(`acc` is the current piece reversed). -/
def splitNLGo : List Char → List Char → List String
  | [], acc => [String.mk acc.reverse]
  | c :: cs, acc =>
    if c == '\n' then String.mk acc.reverse :: splitNLGo cs []
    else splitNLGo cs (c :: acc)

/-- Python `s.split('\n')`. -/
def splitNL (s : String) : List String := splitNLGo s.toList []

/-- Python `s.split('\n')`, each line stripped, empties dropped: the list
comprehension `[line.strip() for line in text.split('\n') if line.strip()]`. -/
def strippedLines (text : String) : List String :=
  ((splitNL text).map pyStrip).filter (fun l => l != "")

/-- Python `re.split(r'\s+', s)` (splitter for item lines): cut at every
maximal whitespace run; a leading run yields a leading empty token, as in
Python.  `acc` is the current token reversed; the flag records that a
whitespace run is being skipped (its token was already emitted). -/
def splitWSGo : List Char → List Char → Bool → List String
  | [], acc, _ => [String.mk acc.reverse]
  | c :: cs, acc, inRun =>
    if pyIsSpace c then
      if inRun then splitWSGo cs [] true
      else String.mk acc.reverse :: splitWSGo cs [] true
    else splitWSGo cs (c :: acc) false

/-- Python `re.split(r'\s+', s)`. -/
def splitWS (s : String) : List String := splitWSGo s.toList [] false

/-- Python `re.split(r'\s{2,}', s)` (splitter for the synthetic header row):
cut only at whitespace runs of length at least two; a single whitespace
character stays inside the token.  `acc` is the current token reversed and
`ws` the pending whitespace run (reversed); the run becomes a separator
exactly when it has length at least 2, as the regex demands. -/
def splitR2Go : List Char → List Char → List Char → List String
  | [], acc, ws =>
    if 2 ≤ ws.length then [String.mk acc.reverse, ""]
    else [String.mk (ws ++ acc).reverse]
  | c :: cs, acc, ws =>
    if pyIsSpace c then splitR2Go cs acc (c :: ws)
    else
      if 2 ≤ ws.length then String.mk acc.reverse :: splitR2Go cs [c] []
      else splitR2Go cs (c :: (ws ++ acc)) []

/-- Python `re.split(r'\s{2,}', s)`. -/
def splitRuns2 (s : String) : List String := splitR2Go s.toList [] []

/-- Python `s.replace(pat, '')`: delete the leftmost occurrence and continue
after it, left to right, non-overlapping.  The fuel argument (instantiated
with the string length, an upper bound on the number of steps since the one
pattern used, "Betalat ", is nonempty and every step consumes at least one
character) makes the recursion structural. -/
def removeAllAux (pat : List Char) : Nat → List Char → List Char
  | _, [] => []
  | 0, cs => cs
  | fuel + 1, c :: cs =>
    if hasPrefixL pat (c :: cs) then
      removeAllAux pat fuel (List.drop (pat.length - 1) cs)
    else c :: removeAllAux pat fuel cs

/-- Python `s.replace(pat, '')` (all occurrences deleted). -/
def removeAllStr (pat s : String) : String :=
  String.mk (removeAllAux pat.toList s.toList.length s.toList)

/-! ## Item-Line Parser and text fallback (`parse_receipt_text`) -/

/-- Keywords whose presence (case sensitive) marks a header line. -/
def headerKeywords : List String :=
  ["Beskrivning", "Artikelnummer", "Pris", "Mängd", "Summa"]

/-- Keywords whose presence in the lowered line ends the item section. -/
def footerKeywords : List String := ["betalat", "moms", "kort", "totalt", "köp"]

/-- Inner loop of `parse_receipt_text` over the whitespace-split tokens of an
item line: the first token matching the article-number pattern splits the
line; the joined tokens before it are the description, the price-shaped
tokens after it (comma normalized to dot) are the candidates; the row
`[description, article, first price, "1.00 st", last price]` is produced
only when the description is nonempty and there are at least two candidates.
`before` accumulates the already-scanned tokens in reverse. -/
def parseItemAux (before : List String) : List String → Option (List String)
  | [] => none
  | t :: rest =>
    if isArticleNum t then
      let name := String.intercalate " " before.reverse
      let prices := rest.filterMap
        (fun p => if isPriceTok p then some (commaToDot p) else none)
      if name != "" && 2 ≤ prices.length then
        match prices with
        | p :: ps => some [name, t, p, "1.00 st", ps.getLastD p]
        | [] => none
      else none
    else parseItemAux (t :: before) rest

/-- The Item-Line Parser on the token list of one line (lines 199-219 of the
source, the body run for each line after the header once it has at least
4 tokens). -/
def parse_item_line (parts : List String) : Option (List String) :=
  parseItemAux [] parts

/-- Scan of `parse_receipt_text` over the stripped nonempty lines, threading
the header-seen flag and accumulating rows; a footer keyword (lowered
containment) after the header breaks the scan. -/
def prtLoop : List String → Bool → List (List String) → List (List String)
  | [], _, acc => acc
  | line :: rest, headerFound, acc =>
    if headerKeywords.any (fun kw => containsSub line kw) then
      prtLoop rest true (acc ++ [splitRuns2 line])
    else if headerFound then
      if footerKeywords.any (fun kw => containsSub (pyLower line) kw) then acc
      else
        let parts := splitWS line
        if 4 ≤ parts.length then
          match parse_item_line parts with
          | some row => prtLoop rest headerFound (acc ++ [row])
          | none => prtLoop rest headerFound acc
        else prtLoop rest headerFound acc
    else prtLoop rest headerFound acc

/-- Python `parse_receipt_text(text)`: assemble a synthetic table from the
text lines; fewer than 2 rows yields the empty list. -/
def parse_receipt_text (text : String) : List (List String) :=
  let rows := prtLoop (strippedLines text) false []
  if 1 < rows.length then rows else []

/-! ## Table Extractor (`extract_table_from_pdf`) -/

/-- One page of the document as the code consumes it: the structural tables
`page.extract_tables()` returns and the plain text `page.extract_text()`
returns (`none` models Python `None`). -/
structure PdfPage where
  tables : List (List (List String))
  text : Option String
deriving DecidableEq

/-- Candidate tables contributed by one page: its structural tables when it
has any, else the synthetic table parsed from its text when that text is
truthy and the parse is nonempty. -/
def pageCandidates (p : PdfPage) : List (List (List String)) :=
  if p.tables != [] then p.tables
  else
    match p.text with
    | some txt =>
      if txt != "" then
        let parsed := parse_receipt_text txt
        if parsed != [] then [parsed] else []
      else []
    | none => []

/-- All candidate tables gathered across the pages, in page order. -/
def gatherCandidates (pages : List PdfPage) : List (List (List String)) :=
  (pages.map pageCandidates).flatten

/-- Python `max(all_tables, key=len)`: fold that replaces the current best
only on a strictly greater key, so the first of the tied maxima survives. -/
def pyMax (t : List (List String)) (ts : List (List (List String))) :
    List (List String) :=
  ts.foldl (fun best u => if best.length < u.length then u else best) t

/-- Python `extract_table_from_pdf`: gather candidates over the pages and
return the largest (`max(all_tables, key=len)`); an empty candidate set
raises (`ValueError`), modelled as `Except.error`. -/
def extract_table_from_pdf (pages : List PdfPage) :
    Except String (List (List String)) :=
  match gatherCandidates pages with
  | [] => Except.error "No tables found in PDF"
  | t :: ts => Except.ok (pyMax t ts)

/-! ## Field Scanner (`extract_betalat_total`) -/

/-- Inner line scan of `extract_betalat_total`: on a line starting with
"Betalat ", delete every occurrence of "Betalat ", strip, normalize the
comma, and return the result when it matches the price pattern; otherwise
keep scanning. -/
def ebLines : List String → Option String
  | [] => none
  | line :: rest =>
    if hasPrefixS "Betalat " line then
      let amount := commaToDot (pyStrip (removeAllStr "Betalat " line))
      if priceFormatB amount then some amount else ebLines rest
    else ebLines rest

/-- Python `extract_betalat_total`: scan each page with truthy text, return
the first accepted amount, else the empty string. -/
def extract_betalat_total : List PdfPage → String
  | [] => ""
  | p :: ps =>
    match p.text with
    | some txt =>
      if txt != "" then
        match ebLines (strippedLines txt) with
        | some a => a
        | none => extract_betalat_total ps
      else extract_betalat_total ps
    | none => extract_betalat_total ps

/-! ## Row Normalizer (`process_receipt_table`) -/

/-- Column resolution over the header row (`for i, col in enumerate(...)`):
a column containing "beskrivning" or "description" (lowered) becomes the
description column, else one containing "summa" becomes the price column;
defaults are column 0 and column -1 (Python last-column index), and a later
matching column overwrites an earlier one. -/
def resolveCols (header : List String) : Nat × Int :=
  header.enum.foldl
    (fun di_pi ic =>
      let cl := pyLower ic.2
      if containsSub cl "beskrivning" || containsSub cl "description" then
        (ic.1, di_pi.2)
      else if containsSub cl "summa" then (di_pi.1, (ic.1 : Int))
      else di_pi)
    (0, -1)

/-- The per-row body of the `for row in table[1:]` loop: `none` when the row
is skipped (short row, empty or placeholder cells, or a cleaned price that
fails the price pattern), `some (description, price)` when it is emitted.
The index-failure arm of the match is unreachable: the length guard makes
both `pyIndex` reads succeed (see `rowEmit_index_safe`). -/
def rowEmit (di : Nat) (pi : Int) (row : List String) : Option (String × String) :=
  if row.length ≤ max di pi.natAbs then none
  else
    match pyIndex row (di : Int), pyIndex row pi with
    | some dc, some pc =>
      let item0 := pyStrip dc
      let price0 := pyStrip pc
      if item0 == "" || price0 == "" || ["None", "nan", ""].contains item0 then
        none
      else
        let cleaned := commaToDot (priceSub price0)
        if priceFormatB cleaned then
          some (if startsPlusStar item0 then "\x27" ++ item0 else item0, cleaned)
        else none
    | _, _ => none

/-- The accumulator loop over the data rows (`items_and_prices.append`). -/
def prtAccum (di : Nat) (pi : Int) :
    List (List String) → List (String × String) → List (String × String)
  | [], acc => acc
  | r :: rs, acc =>
    match rowEmit di pi r with
    | some pair => prtAccum di pi rs (acc ++ [pair])
    | none => prtAccum di pi rs acc

/-- Python `process_receipt_table(table)`: empty result for fewer than 2
rows, else resolve the columns from row 0 and run the row loop over the
remaining rows. -/
def process_receipt_table (table : List (List String)) :
    List (String × String) :=
  if table.length < 2 then []
  else
    let dp := resolveCols (table.headD [])
    prtAccum dp.1 dp.2 (table.drop 1) []

/-! ## Spreadsheet value grid (`create_or_update_sheet` / `create_new_spreadsheet`) -/

/-- The `sheet_data` grid both `create_or_update_sheet` (lines 283-298) and
`create_new_spreadsheet` (lines 351-366) build with textually identical
code: header row, one row per pair, a blank separator, then five summary
rows whose column-7 entries are the three column sums, the sheet-total
formula over rows `start_row .. start_row+2` with
`start_row = len(data) + 3`, and the literal extracted total. -/
def create_sheet_data (data : List (String × String)) (pdf_total : String) :
    List (List String) :=
  let start_row := data.length + 3
  [["Item", "Shared expenses", "My expenses", "Jessica expenses", "", "", ""]]
    ++ data.map (fun ip => [ip.1, ip.2, "", "", "", "", ""])
    ++ [["", "", "", "", "", "", ""]]
    ++ [["", "", "", "", "", "Sum of shared expenses", "=SUM(B:B)"],
        ["", "", "", "", "", "Sum of my expenses", "=SUM(C:C)"],
        ["", "", "", "", "", "Sum of Jessica\x27s expenses", "=SUM(D:D)"],
        ["", "", "", "", "", "Sheet total",
          "=SUM(G" ++ toString start_row ++ ":G" ++ toString (start_row + 2) ++ ")"],
        ["", "", "", "", "", "PDF total", pdf_total]]

/-! ## CLI surface and run orchestration (`main` / `process_receipt`) -/

/-- The observable steps of one run; collaborator calls (CSV writer, Sheets
API) are events, their payloads abstracted. -/
inductive RunAction where
  | usageError
  | fatalExit
  | reportNoItems
  | saveCsv
  | authenticate
  | createNewSpreadsheet
  | updateSheet
deriving DecidableEq

/-- The argument check of `main` (line 476): the run is accepted unless
`--to-csv`, `--create-new` and `--spreadsheet-id` are all absent (Python
falsy). -/
def cliModeCheck (to_csv : Option String) (create_new : Bool)
    (spreadsheet_id : Option String) : Bool :=
  pyTruthy to_csv || create_new || pyTruthy spreadsheet_id

/-- Python `process_receipt` as its sequence of observable steps: extract
(a failed extraction exits), report and stop when no items survive, else
export to CSV when a CSV path is truthy, else authenticate and either
create a new spreadsheet, update the named one, or exit when the id is
missing. -/
def process_receipt (pages : List PdfPage) (spreadsheet_id : Option String)
    (create_new : Bool) (csv_path : Option String) : List RunAction :=
  match extract_table_from_pdf pages with
  | Except.error _ => [RunAction.fatalExit]
  | Except.ok table =>
    let items := process_receipt_table table
    if items.isEmpty then [RunAction.reportNoItems]
    else if pyTruthy csv_path then [RunAction.saveCsv]
    else if create_new then [RunAction.authenticate, RunAction.createNewSpreadsheet]
    else if pyTruthy spreadsheet_id then
      [RunAction.authenticate, RunAction.updateSheet]
    else [RunAction.authenticate, RunAction.fatalExit]

/-- Python `main`: the usage check runs before the processor is invoked, so
a rejected argument set produces only the usage error and no parsing
happens. -/
def main_model (pages : List PdfPage) (spreadsheet_id : Option String)
    (create_new : Bool) (csv_path : Option String) : List RunAction :=
  if cliModeCheck csv_path create_new spreadsheet_id then
    process_receipt pages spreadsheet_id create_new csv_path
  else [RunAction.usageError]

/-! ## Definitions modelled from the wording of spec and claims
(for the refinement comparisons; each is compared against the code
embedding above, never used by it). -/

/-- All stripped nonempty text lines of the document in page order, as the
Field Scanner claims describe the scan. -/
def allTextLines (pages : List PdfPage) : List String :=
  (pages.map (fun p =>
    match p.text with
    | some txt => if txt != "" then strippedLines txt else []
    | none => [])).flatten

/-- Candidate acceptance for the amended paid-total reading: on a line that
starts with "Betalat ", delete every occurrence of "Betalat ", strip and
normalize the comma; accept on a full price-pattern match. -/
def betalatCand (line : String) : Option String :=
  if hasPrefixS "Betalat " line then
    let amount := commaToDot (pyStrip (removeAllStr "Betalat " line))
    if priceFormatB amount then some amount else none
  else none

/-- Spec-style paid-total scan under the amended reading: first acceptance
over the document lines, empty string when none. -/
def betalat_amended (pages : List PdfPage) : String :=
  ((allTextLines pages).findSome? betalatCand).getD ""

/-- Candidate formation as claim C3 words it: the candidate is exactly the
remainder of the line after the prefix "Betalat " (trimmed, comma replaced
by dot), accepted on a full price-pattern match. -/
def betalatCandRemainder (line : String) : Option String :=
  if hasPrefixS "Betalat " line then
    let amount := commaToDot (pyStrip (String.mk (line.toList.drop 8)))
    if priceFormatB amount then some amount else none
  else none

/-- Paid-total scan as claim C3 words it (remainder-after-prefix
candidates). -/
def betalat_remainder_spec (pages : List PdfPage) : String :=
  ((allTextLines pages).findSome? betalatCandRemainder).getD ""

/-! ## Helper lemmas -/

/-- The appending row loop is the `filterMap` of the per-row body. -/
theorem prtAccum_eq_filterMap (di : Nat) (pi : Int) :
    ∀ (rs : List (List String)) (acc : List (String × String)),
      prtAccum di pi rs acc = acc ++ rs.filterMap (rowEmit di pi) := by
  intro rs
  induction rs with
  | nil => intro acc; simp [prtAccum]
  | cons r rs ih =>
    intro acc
    simp only [prtAccum, List.filterMap_cons]
    cases h : rowEmit di pi r with
    | none => simp [ih]
    | some pair => simp [ih, List.append_assoc]

/-- Characters the stripper removes are never kept by the price filter. -/
theorem priceKeep_of_pyIsSpace (c : Char) (h : pyIsSpace c = true) :
    priceKeep c = false := by
  simp only [pyIsSpace, Bool.or_eq_true, beq_iff_eq] at h
  rcases h with ((((h | h) | h) | h) | h) | h <;> subst h <;> decide

/-- Dropping a prefix of filtered-out characters does not change a filter. -/
theorem filter_dropWhile_eq {p q : Char → Bool}
    (hpq : ∀ c, q c = true → p c = false) :
    ∀ cs : List Char, (cs.dropWhile q).filter p = cs.filter p := by
  intro cs
  induction cs with
  | nil => rfl
  | cons c cs ih =>
    by_cases h : q c = true
    · rw [List.dropWhile_cons_of_pos h, ih, List.filter_cons_of_neg]
      simp [hpq c h]
    · rw [List.dropWhile_cons_of_neg h]

/-- Stripping never changes the price-character filtering. -/
theorem priceSub_pyStrip (s : String) : priceSub (pyStrip s) = priceSub s := by
  simp only [priceSub, pyStrip, stripL, String.toList]
  congr 1
  rw [List.filter_reverse, filter_dropWhile_eq priceKeep_of_pyIsSpace,
    List.filter_reverse, List.reverse_reverse,
    filter_dropWhile_eq priceKeep_of_pyIsSpace]

/-- Inversion of a successful row emission: both cell reads succeeded and the
pair is the stripped description (apostrophe-escaped when it starts with
'+' or '*') with the cleaned price, which passes the price pattern. -/
theorem rowEmit_some_inv {di : Nat} {pi : Int} {row : List String}
    {pair : String × String} (h : rowEmit di pi row = some pair) :
    ∃ dc pc, pyIndex row (di : Int) = some dc ∧ pyIndex row pi = some pc ∧
      pair.1 = (if startsPlusStar (pyStrip dc) then "\x27" ++ pyStrip dc
        else pyStrip dc) ∧
      pair.2 = commaToDot (priceSub (pyStrip pc)) ∧
      priceFormatB pair.2 = true := by
  unfold rowEmit at h
  split at h
  · exact absurd h (by simp)
  · split at h
    case _ dc pc hdc hpc =>
      refine ⟨dc, pc, hdc, hpc, ?_⟩
      dsimp only at h
      split at h
      · exact absurd h (by simp)
      · split at h
        · rw [Option.some_inj] at h
          subst h
          simp_all
        · exact absurd h (by simp)
    case _ => exact absurd h (by simp)

/-- The inner paid-total line scan is the first-acceptance scan of the
candidate function. -/
theorem ebLines_eq_findSome (ls : List String) :
    ebLines ls = ls.findSome? betalatCand := by
  induction ls with
  | nil => rfl
  | cons line rest ih =>
    simp only [ebLines, betalatCand, List.findSome?_cons]
    split
    · split <;> simp [ih]
    · simp [ih]

/-- Decomposition of the Python `max(_, key=len)` fold: the chosen table
splits the candidate list into a strictly-shorter prefix and a remainder,
and it bounds every candidate. -/
theorem pyMax_decomp :
    ∀ (ts : List (List (List String))) (t : List (List String)),
      ∃ pre post,
        t :: ts = pre ++ pyMax t ts :: post ∧
        (∀ u ∈ pre, u.length < (pyMax t ts).length) ∧
        (∀ u ∈ t :: ts, u.length ≤ (pyMax t ts).length) := by
  intro ts
  induction ts with
  | nil =>
    intro t
    exact ⟨[], [], rfl, by simp, by simp [pyMax]⟩
  | cons u us ih =>
    intro t
    have hstep : pyMax t (u :: us) =
        pyMax (if t.length < u.length then u else t) us := rfl
    by_cases hlt : t.length < u.length
    · rw [if_pos hlt] at hstep
      obtain ⟨pre, post, hdec, hpre, hub⟩ := ih u
      refine ⟨t :: pre, post, ?_, ?_, ?_⟩
      · rw [hstep, List.cons_append, ← hdec]
      · intro x hx
        rcases List.mem_cons.mp hx with hx | hx
        · subst hx
          rw [hstep]
          exact lt_of_lt_of_le hlt (hub u (List.mem_cons_self u us))
        · rw [hstep]; exact hpre x hx
      · intro x hx
        rw [hstep]
        rcases List.mem_cons.mp hx with hx | hx
        · subst hx
          exact le_of_lt (lt_of_lt_of_le hlt (hub u (List.mem_cons_self u us)))
        · exact hub x hx
    · rw [if_neg hlt] at hstep
      obtain ⟨pre, post, hdec, hpre, hub⟩ := ih t
      cases pre with
      | nil =>
        simp only [List.nil_append] at hdec
        injection hdec with ht hpost
        refine ⟨[], u :: us, ?_, by simp, ?_⟩
        · rw [hstep, ← ht]; rfl
        · intro x hx
          rw [hstep, ← ht]
          rcases List.mem_cons.mp hx with hx | hx
          · rw [hx]
          · rcases List.mem_cons.mp hx with hx | hx
            · rw [hx]; exact Nat.le_of_not_lt hlt
            · have := hub x (List.mem_cons_of_mem t hx)
              rwa [← ht] at this
      | cons p pre' =>
        rw [List.cons_append] at hdec
        injection hdec with hp hus
        have htpre : t ∈ p :: pre' := hp ▸ List.mem_cons_self p pre'
        refine ⟨t :: u :: pre', post, ?_, ?_, ?_⟩
        · rw [hstep, List.cons_append, List.cons_append, ← hus]
        · intro x hx
          rw [hstep]
          rcases List.mem_cons.mp hx with hx | hx
          · rw [hx]; exact hpre t htpre
          · rcases List.mem_cons.mp hx with hx | hx
            · rw [hx]
              exact lt_of_le_of_lt (Nat.le_of_not_lt hlt) (hpre t htpre)
            · exact hpre x (List.mem_cons_of_mem p hx)
        · intro x hx
          rw [hstep]
          rcases List.mem_cons.mp hx with hx | hx
          · rw [hx]; exact hub t (List.mem_cons_self t us)
          · rcases List.mem_cons.mp hx with hx | hx
            · rw [hx]
              exact le_trans (Nat.le_of_not_lt hlt)
                (hub t (List.mem_cons_self t us))
            · exact hub x (List.mem_cons_of_mem t hx)

/-- A `find?` over a list decomposed as (rejecting prefix, hit, rest) finds
the hit. -/
theorem find_first_of_decomp {α : Type} (p : α → Bool) :
    ∀ (pre : List α) (r : α) (post : List α),
      (∀ u ∈ pre, p u = false) → p r = true →
      List.find? p (pre ++ r :: post) = some r := by
  intro pre
  induction pre with
  | nil => intro r post _ hr; simp [List.find?_cons, hr]
  | cons q pre ih =>
    intro r post hpre hr
    rw [List.cons_append, List.find?_cons,
      hpre q (List.mem_cons_self q pre)]
    exact ih r post (fun u hu => hpre u (List.mem_cons_of_mem q hu)) hr

/-- The Row Normalizer is the `filterMap` of the per-row body over the data
rows (for tables of fewer than 2 rows both sides are empty). -/
theorem process_receipt_table_eq (table : List (List String)) :
    process_receipt_table table =
      (table.drop 1).filterMap
        (rowEmit (resolveCols (table.headD [])).1
          (resolveCols (table.headD [])).2) := by
  unfold process_receipt_table
  by_cases h2 : table.length < 2
  · rw [if_pos h2]
    match table, h2 with
    | [], _ => rfl
    | [h], _ => rfl
  · rw [if_neg h2]
    dsimp only
    rw [prtAccum_eq_filterMap]
    rfl

/-! ## The claims -/

/-- Claim C1: for every table with at least 2 rows, the Row Normalizer never
emits a pair whose price string fails the pattern `^\d+\.\d{2}$`; each
emitted price is the source price cell stripped of every character that is
not a digit, comma, dot or minus, with commas replaced by dots (rows whose
cleaned price fails the pattern are skipped, so only pattern-matching
prices are ever emitted). -/
theorem claim_price_invariant (table : List (List String))
    (pair : String × String) (hlen : 2 ≤ table.length)
    (hmem : pair ∈ process_receipt_table table) :
    priceFormatB pair.2 = true ∧
    ∃ row ∈ table.drop 1, ∃ cell,
      pyIndex row (resolveCols (table.headD [])).2 = some cell ∧
      pair.2 = commaToDot (priceSub cell) := by
  rw [process_receipt_table_eq] at hmem
  obtain ⟨row, hrow, hemit⟩ := List.mem_filterMap.mp hmem
  obtain ⟨dc, pc, hdc, hpc, h1, h2, h3⟩ := rowEmit_some_inv hemit
  refine ⟨h3, row, hrow, pc, hpc, ?_⟩
  rw [h2, priceSub_pyStrip]

/-- Witness for C1 at a concrete table: the hypotheses hold and the
conclusion follows by the theorem. -/
theorem claim_price_invariant_witness :
    2 ≤ ([["Beskrivning", "Summa"], ["Bread", "25,50"]] :
        List (List String)).length ∧
    ("Bread", "25.50") ∈
      process_receipt_table [["Beskrivning", "Summa"], ["Bread", "25,50"]] ∧
    (priceFormatB ("Bread", "25.50").2 = true ∧
     ∃ row ∈ ([["Beskrivning", "Summa"], ["Bread", "25,50"]] :
         List (List String)).drop 1, ∃ cell,
       pyIndex row
         (resolveCols (([["Beskrivning", "Summa"], ["Bread", "25,50"]] :
           List (List String)).headD [])).2 = some cell ∧
       ("Bread", "25.50").2 = commaToDot (priceSub cell)) :=
  ⟨by decide, by decide,
    claim_price_invariant _ _ (by decide) (by decide)⟩

/-- Claim C7: the Row Normalizer is order-preserving: for a table with at
least 2 rows the emitted sequence is exactly the filterMap of the per-row
body over the data rows `table[1:]`, i.e. the surviving rows in their
original relative order, with no reordering, duplication or insertion. -/
theorem claim_order_preserving (table : List (List String))
    (hlen : 2 ≤ table.length) :
    process_receipt_table table =
      (table.drop 1).filterMap
        (rowEmit (resolveCols (table.headD [])).1
          (resolveCols (table.headD [])).2) :=
  process_receipt_table_eq table

/-- Witness for C7 at a concrete table. -/
theorem claim_order_preserving_witness :
    2 ≤ ([["Beskrivning", "Summa"], ["Bread", "25,50"], ["", "nan"]] :
        List (List String)).length ∧
    process_receipt_table
        [["Beskrivning", "Summa"], ["Bread", "25,50"], ["", "nan"]] =
      (([["Beskrivning", "Summa"], ["Bread", "25,50"], ["", "nan"]] :
          List (List String)).drop 1).filterMap
        (rowEmit
          (resolveCols (([["Beskrivning", "Summa"], ["Bread", "25,50"],
            ["", "nan"]] : List (List String)).headD [])).1
          (resolveCols (([["Beskrivning", "Summa"], ["Bread", "25,50"],
            ["", "nan"]] : List (List String)).headD [])).2) :=
  ⟨by decide, claim_order_preserving _ (by decide)⟩

/-- Claim C4 counterexample: the source description cell " Milk " does not
begin with '+' or '*', yet the emitted description is the stripped string
"Milk", not the cell unchanged, refuting "every other emitted description
equals the source description cell unchanged" at this input. -/
theorem claim_description_cex :
    startsPlusStar " Milk " = false ∧
    process_receipt_table [["a", "b"], [" Milk ", "1,00"]] =
      [("Milk", "1.00")] ∧
    ((" Milk " : String) == "Milk") = false := by
  refine ⟨by decide, by decide, by decide⟩

/-- Claim C4 as amended: every emitted description is the stripped source
description cell, prefixed with a single apostrophe when the stripped cell
begins with '+' or '*', and unchanged (beyond the stripping) otherwise. -/
theorem claim_description_amended (table : List (List String))
    (pair : String × String) (hlen : 2 ≤ table.length)
    (hmem : pair ∈ process_receipt_table table) :
    ∃ row ∈ table.drop 1, ∃ cell,
      pyIndex row ((resolveCols (table.headD [])).1 : Int) = some cell ∧
      pair.1 = (if startsPlusStar (pyStrip cell) then "\x27" ++ pyStrip cell
        else pyStrip cell) := by
  rw [process_receipt_table_eq] at hmem
  obtain ⟨row, hrow, hemit⟩ := List.mem_filterMap.mp hmem
  obtain ⟨dc, pc, hdc, hpc, h1, h2, h3⟩ := rowEmit_some_inv hemit
  exact ⟨row, hrow, dc, hdc, h1⟩

/-- Witness for the amended C4 at a concrete table with a '+'-leading
description. -/
theorem claim_description_amended_witness :
    2 ≤ ([["Beskrivning", "Summa"], ["+Chips", "5,00"]] :
        List (List String)).length ∧
    ("\x27+Chips", "5.00") ∈
      process_receipt_table [["Beskrivning", "Summa"], ["+Chips", "5,00"]] ∧
    (∃ row ∈ ([["Beskrivning", "Summa"], ["+Chips", "5,00"]] :
        List (List String)).drop 1, ∃ cell,
      pyIndex row
        ((resolveCols (([["Beskrivning", "Summa"], ["+Chips", "5,00"]] :
          List (List String)).headD [])).1 : Int) = some cell ∧
      ("\x27+Chips", "5.00").1 =
        (if startsPlusStar (pyStrip cell) then "\x27" ++ pyStrip cell
         else pyStrip cell)) :=
  ⟨by decide, by decide,
    claim_description_amended _ _ (by decide) (by decide)⟩

/-- A Python index whose absolute value is below the length reads
successfully (both the nonnegative and the from-the-end case). -/
theorem pyIndex_isSome {α : Type} (l : List α) (i : Int)
    (h : i.natAbs < l.length) : (pyIndex l i).isSome = true := by
  unfold pyIndex
  by_cases hi : i < 0
  · simp only [if_pos hi]
    split
    · rfl
    · rename_i hcon
      exfalso
      omega
  · simp only [if_neg hi]
    split
    · rfl
    · rename_i hcon
      exfalso
      omega

/-- Python `row[-1]` is the last element of a nonempty row. -/
theorem pyIndex_neg_one {α : Type} (l : List α) (h : l ≠ []) :
    pyIndex l (-1) = l.getLast? := by
  unfold pyIndex
  have hlen : 0 < l.length := List.length_pos.mpr h
  have hc : (0 : Int) ≤
      (if (-1 : Int) < 0 then (l.length : Int) + (-1) else (-1)) ∧
      (if (-1 : Int) < 0 then (l.length : Int) + (-1) else (-1)) <
        (l.length : Int) := by
    simp only [if_pos (by norm_num : (-1 : Int) < 0)]
    omega
  rw [dif_pos hc]
  have ht : ((if (-1 : Int) < 0 then (l.length : Int) + (-1)
      else (-1)).toNat) = l.length - 1 := by
    simp only [if_pos (by norm_num : (-1 : Int) < 0)]
    omega
  rw [List.getLast?_eq_getElem?, List.getElem?_eq_getElem (by omega)]
  simp only [List.get_eq_getElem, Option.some.injEq]
  exact getElem_congr ht

/-- A member of `enumFrom` projects to a member of the list. -/
theorem snd_mem_enumFrom {α : Type} :
    ∀ (l : List α) (n : Nat) (p : Nat × α), p ∈ List.enumFrom n l → p.2 ∈ l := by
  intro l
  induction l with
  | nil => intro n p h; simp [List.enumFrom] at h
  | cons x xs ih =>
    intro n p h
    rw [List.enumFrom] at h
    rcases List.mem_cons.mp h with h | h
    · rw [h]; exact List.mem_cons_self x xs
    · exact List.mem_cons_of_mem x (ih (n + 1) p h)

/-- The column-resolution fold leaves the price index untouched when no
enumerated column contains the sum keyword. -/
theorem resolveFold_snd (l : List (Nat × String)) (acc : Nat × Int)
    (h : ∀ ic ∈ l, containsSub (pyLower ic.2) "summa" = false) :
    (l.foldl
      (fun di_pi ic =>
        let cl := pyLower ic.2
        if containsSub cl "beskrivning" || containsSub cl "description" then
          (ic.1, di_pi.2)
        else if containsSub cl "summa" then (di_pi.1, (ic.1 : Int))
        else di_pi)
      acc).2 = acc.2 := by
  induction l generalizing acc with
  | nil => rfl
  | cons ic l ih =>
    rw [List.foldl_cons,
      ih _ (fun x hx => h x (List.mem_cons_of_mem ic hx))]
    dsimp only
    split
    · rfl
    · simp [h ic (List.mem_cons_self ic l)]

/-- Claim C9: the Row Normalizer is total on ragged tables.  With the
columns resolved from the header: a data row no longer than
`max(desc index, |price index|)` is skipped with no cell read; on any
longer row both resolved cell reads are in range (so no access is ever out
of range); when no header column contains the sum keyword the price index
stays -1, and index -1 reads the row's own last cell, so rows of different
lengths take their price from different column positions. -/
theorem claim_ragged_rows_safe (header row : List String) :
    (row.length ≤
        max (resolveCols header).1 (resolveCols header).2.natAbs →
      rowEmit (resolveCols header).1 (resolveCols header).2 row = none) ∧
    (max (resolveCols header).1 (resolveCols header).2.natAbs <
        row.length →
      (pyIndex row ((resolveCols header).1 : Int)).isSome = true ∧
      (pyIndex row (resolveCols header).2).isSome = true) ∧
    ((∀ c ∈ header, containsSub (pyLower c) "summa" = false) →
      (resolveCols header).2 = -1) ∧
    (row ≠ [] → pyIndex row (-1) = row.getLast?) := by
  refine ⟨?_, ?_, ?_, ?_⟩
  · intro hshort
    unfold rowEmit
    rw [if_pos hshort]
  · intro hlong
    constructor
    · exact pyIndex_isSome row _ (by simp; omega)
    · exact pyIndex_isSome row _ (by omega)
  · intro hnone
    unfold resolveCols
    exact resolveFold_snd _ _
      (fun ic hic => hnone ic.2 (snd_mem_enumFrom header 0 ic hic))
  · exact pyIndex_neg_one row

/-- Claim C10: a third, undocumented failure of the Item-Line Parser: when
the first token of the line already matches the article-number pattern, the
description (the join of the tokens before it) is empty, so no item row is
produced regardless of how many price candidates follow. -/
theorem claim_empty_description (t : String) (rest : List String)
    (h : isArticleNum t = true) : parse_item_line (t :: rest) = none := by
  unfold parse_item_line parseItemAux
  rw [if_pos h]
  rfl

/-- Witness for C10 at the line "12345 10,00 1 10,00": its first token is an
article number and two price candidates follow, yet no item is produced. -/
theorem claim_empty_description_witness :
    isArticleNum "12345" = true ∧
    splitWS "12345 10,00 1 10,00" = ["12345", "10,00", "1", "10,00"] ∧
    (["10,00", "1", "10,00"].filterMap
      (fun p => if isPriceTok p then some (commaToDot p) else none)).length =
        2 ∧
    parse_item_line ["12345", "10,00", "1", "10,00"] = none :=
  ⟨by decide, by decide, by decide,
    claim_empty_description "12345" ["10,00", "1", "10,00"] (by decide)⟩

/-- Claim C6: table selection is a deterministic function of the ordered
candidate list: an empty candidate set fails with the no-table error, and a
nonempty one returns `max(_, key=len)`, which is the first candidate whose
row count bounds every candidate (`find?` of the maximal-length predicate),
so the largest table wins and ties go to the first encountered. -/
theorem claim_table_selection (pages : List PdfPage) :
    (gatherCandidates pages = [] →
      extract_table_from_pdf pages =
        Except.error "No tables found in PDF") ∧
    (∀ t ts, gatherCandidates pages = t :: ts →
      extract_table_from_pdf pages = Except.ok (pyMax t ts) ∧
      (t :: ts).find?
          (fun u => (t :: ts).all (fun v => decide (v.length ≤ u.length))) =
        some (pyMax t ts)) := by
  constructor
  · intro h
    unfold extract_table_from_pdf
    rw [h]
  · intro t ts h
    constructor
    · unfold extract_table_from_pdf
      rw [h]
    · obtain ⟨pre, post, hdec, hpre, hub⟩ := pyMax_decomp ts t
      rw [hdec]
      apply find_first_of_decomp
      · intro u hu
        have hr : pyMax t ts ∈ pre ++ pyMax t ts :: post :=
          List.mem_append_right _ (List.mem_cons_self _ _)
        apply eq_false_of_ne_true
        intro hall
        have := of_decide_eq_true (List.all_eq_true.mp hall _ hr)
        exact absurd this (not_le.mpr (hpre u hu))
      · apply List.all_eq_true.mpr
        intro v hv
        exact decide_eq_true (hub v (hdec ▸ hv))

/-- First-acceptance scans concatenate: search the first block, then the
rest. -/
theorem findSome?_append {α β : Type} (f : α → Option β) :
    ∀ (l1 l2 : List α), List.findSome? f (l1 ++ l2) =
      match List.findSome? f l1 with
      | some b => some b
      | none => List.findSome? f l2 := by
  intro l1
  induction l1 with
  | nil => intro l2; rfl
  | cons a l1 ih =>
    intro l2
    rw [List.cons_append, List.findSome?_cons, List.findSome?_cons]
    cases f a with
    | some b => rfl
    | none => exact ih l2

/-- Claim C3 counterexample: on the line "Betalat Betalat 10,00" the code
deletes every occurrence of "Betalat " (Python `str.replace`) and returns
"10.00", while the claimed remainder-after-the-prefix candidate is
"Betalat 10.00", which fails the pattern, so under the claim the scan would
return the empty string: the claim is false at this document. -/
theorem claim_betalat_cex :
    extract_betalat_total
        [PdfPage.mk [] (some "Betalat Betalat 10,00")] = "10.00" ∧
    betalat_remainder_spec
        [PdfPage.mk [] (some "Betalat Betalat 10,00")] = "" ∧
    (("10.00" : String) == "") = false :=
  ⟨by decide, by decide, by decide⟩

/-- Claim C3 as amended: the paid-total scan reads all pages' stripped
nonempty lines top to bottom and returns the first candidate formed from a
line starting with "Betalat " by deleting every occurrence of "Betalat "
(trimmed, comma replaced by dot) that fully matches the price pattern; the
empty string when no line is accepted, never an error. -/
theorem claim_betalat_amended (pages : List PdfPage) :
    extract_betalat_total pages = betalat_amended pages := by
  induction pages with
  | nil => rfl
  | cons p ps ih =>
    unfold extract_betalat_total betalat_amended
    unfold betalat_amended at ih
    have hflat : allTextLines (p :: ps) =
        (match p.text with
         | some txt => if txt != "" then strippedLines txt else []
         | none => []) ++ allTextLines ps := by
      unfold allTextLines
      rw [List.map_cons, List.flatten_cons]
    cases hp : p.text with
    | none =>
      rw [hflat, hp]
      simpa using ih
    | some txt =>
      rw [hflat, hp]
      dsimp only
      by_cases ht : txt != ""
      · rw [if_pos ht, if_pos ht]
        rw [findSome?_append, ← ebLines_eq_findSome]
        cases heb : ebLines (strippedLines txt) with
        | some a => rfl
        | none => exact ih
      · rw [if_neg ht]
        rw [Bool.not_eq_true] at ht
        rw [ht]
        simpa using ih

/-- Claim C5: the value grid written in spreadsheet-export mode.  List index
`i` is sheet row `i+1`: the grid has N+7 rows; index 0 (sheet row 1) is the
fixed header; index i+1 (sheet rows 2..N+1) is `[description, price,
"", "", "", "", ""]` for the i-th pair, in order; and the rows from index
N+1 (sheet rows N+2..N+7) are the blank separator, the three column-sum
formula rows, the sheet-total row whose formula sums G(N+3):G(N+5) — sheet
rows N+3..N+5, exactly the three preceding column-7 cells below row N+6 —
and the literal paid-total row. -/
theorem claim_sheet_layout (data : List (String × String))
    (pdf_total : String) :
    (create_sheet_data data pdf_total).length = data.length + 7 ∧
    (create_sheet_data data pdf_total)[0]? =
      some ["Item", "Shared expenses", "My expenses", "Jessica expenses",
        "", "", ""] ∧
    (∀ i, i < data.length →
      (create_sheet_data data pdf_total)[i + 1]? =
        (data[i]?).map (fun ip => [ip.1, ip.2, "", "", "", "", ""])) ∧
    (create_sheet_data data pdf_total).drop (data.length + 1) =
      [["", "", "", "", "", "", ""],
       ["", "", "", "", "", "Sum of shared expenses", "=SUM(B:B)"],
       ["", "", "", "", "", "Sum of my expenses", "=SUM(C:C)"],
       ["", "", "", "", "", "Sum of Jessica\x27s expenses", "=SUM(D:D)"],
       ["", "", "", "", "", "Sheet total",
         "=SUM(G" ++ toString (data.length + 3) ++ ":G" ++
           toString (data.length + 5) ++ ")"],
       ["", "", "", "", "", "PDF total", pdf_total]] := by
  refine ⟨?_, ?_, ?_, ?_⟩
  · simp [create_sheet_data]
  · simp [create_sheet_data]
  · intro i hi
    simp only [create_sheet_data, List.append_assoc, List.singleton_append]
    rw [List.cons_append, List.getElem?_cons_succ,
      List.getElem?_append_left (by simpa using hi), List.getElem?_map]
  · simp only [create_sheet_data, List.append_assoc, List.singleton_append]
    rw [show data.length + 1 = (List.map
        (fun ip : String × String => [ip.1, ip.2, "", "", "", "", ""])
        data).length + 1 from by simp]
    rw [List.cons_append, List.drop_succ_cons, List.drop_left]

/-- A run that passed the argument check never raises the usage error: the
usage error is produced only by the check in `main`. -/
theorem process_receipt_no_usage (pages : List PdfPage)
    (sid : Option String) (cn : Bool) (cp : Option String) :
    RunAction.usageError ∉ process_receipt pages sid cn cp := by
  unfold process_receipt
  cases extract_table_from_pdf pages with
  | error e => simp
  | ok table =>
    dsimp only
    split
    · simp
    · split
      · simp
      · split
        · simp
        · split <;> simp

/-- Claim C2 counterexample: an invocation supplying all three export modes
(CSV path, create-new and a spreadsheet id) passes the argument check and
completes as a valid run (the CSV branch wins), refuting "an invocation
supplying more than one of the three is not accepted as a valid run". -/
theorem claim_cli_modes_cex :
    cliModeCheck (some "out.csv") true (some "abc123") = true ∧
    main_model
        [PdfPage.mk [[["Beskrivning", "Summa"], ["Milk", "10,00"]]] none]
        (some "abc123") true (some "out.csv") = [RunAction.saveCsv] :=
  ⟨by decide, by decide⟩

/-- Claim C2 as amended: the CLI requires at least one export mode: an
invocation supplying none of the three fails with the fatal usage error
before any document parsing begins, and that is the only way the usage
error arises — supplying more than one mode is accepted (the CSV path
takes precedence, then create-new, then the spreadsheet id). -/
theorem claim_cli_modes_amended (pages : List PdfPage)
    (csv_path : Option String) (create_new : Bool) (sid : Option String) :
    main_model pages sid create_new csv_path = [RunAction.usageError] ↔
      (pyTruthy csv_path = false ∧ create_new = false ∧
        pyTruthy sid = false) := by
  constructor
  · intro h
    by_cases hc : cliModeCheck csv_path create_new sid = true
    · rw [main_model, if_pos hc] at h
      have hno := process_receipt_no_usage pages sid create_new csv_path
      rw [h] at hno
      simp at hno
    · have h3 := hc
      simp only [cliModeCheck, Bool.or_eq_true, not_or, Bool.not_eq_true]
        at h3
      exact ⟨h3.1.1, h3.1.2, h3.2⟩
  · intro ⟨h1, h2, h3⟩
    rw [main_model, if_neg (by simp [cliModeCheck, h1, h2, h3])]

/-- Claim C8: when zero rows survive normalization the run reports "no
items found" and stops: the only observable step is the report, and none of
the export sinks (CSV write, spreadsheet creation, sheet update) is
invoked. -/
theorem claim_no_items_no_export (pages : List PdfPage)
    (table : List (List String)) (sid : Option String) (cn : Bool)
    (cp : Option String)
    (hok : extract_table_from_pdf pages = Except.ok table)
    (hempty : process_receipt_table table = []) :
    process_receipt pages sid cn cp = [RunAction.reportNoItems] ∧
    RunAction.saveCsv ∉ process_receipt pages sid cn cp ∧
    RunAction.createNewSpreadsheet ∉ process_receipt pages sid cn cp ∧
    RunAction.updateSheet ∉ process_receipt pages sid cn cp := by
  have h : process_receipt pages sid cn cp = [RunAction.reportNoItems] := by
    unfold process_receipt
    rw [hok]
    dsimp only
    rw [if_pos (by simp [hempty])]
  refine ⟨h, ?_, ?_, ?_⟩ <;> rw [h] <;> simp

/-- Witness for C8: a document whose one structural table has a header and
a single degenerate row; extraction succeeds, normalization drops the row,
and the run is only the no-items report. -/
theorem claim_no_items_no_export_witness :
    extract_table_from_pdf
        [PdfPage.mk [[["Beskrivning", "Summa"], ["", ""]]] none] =
      Except.ok [["Beskrivning", "Summa"], ["", ""]] ∧
    process_receipt_table [["Beskrivning", "Summa"], ["", ""]] = [] ∧
    (process_receipt [PdfPage.mk [[["Beskrivning", "Summa"], ["", ""]]] none]
        none false none = [RunAction.reportNoItems] ∧
     RunAction.saveCsv ∉
       process_receipt [PdfPage.mk [[["Beskrivning", "Summa"], ["", ""]]] none]
         none false none ∧
     RunAction.createNewSpreadsheet ∉
       process_receipt [PdfPage.mk [[["Beskrivning", "Summa"], ["", ""]]] none]
         none false none ∧
     RunAction.updateSheet ∉
       process_receipt [PdfPage.mk [[["Beskrivning", "Summa"], ["", ""]]] none]
         none false none) :=
  ⟨rfl, by decide,
    claim_no_items_no_export _ _ none false none rfl (by decide)⟩
